import Mathlib

/-!
Verification of the capability-aggregation and abstraction-gateway
mechanisms of the design-patterns repository.  The JavaScript source is
shallowly embedded: own-property tables become ordered association lists,
classes become their inheritance chains (base level first), and the
aggregation helper, the abstract-type guards, and the Research consumer
are translated operation by operation.
-/

namespace DPJS

/-- A JavaScript own-property table: an ordered list of name and value
pairs.  Values are opaque tags naming the implementation they came from. -/
abbrev Props := List (String × String)

/-- Property lookup.  The first binding wins; tables built by
defineProp from an empty table never hold duplicate keys. -/
def getProp : Props → String → Option String
  | [], _ => none
  | (k, v) :: rest, m => if k = m then some v else getProp rest m

/-- Object.defineProperty semantics on a table: replace the binding in
place when the key is already present, append it otherwise.  An existing
configurable property is silently redefined, never protected. -/
def defineProp : Props → String → String → Props
  | [], k, v => [(k, v)]
  | (k1, v1) :: rest, k, v =>
      if k1 = k then (k, v) :: rest else (k1, v1) :: defineProp rest k v

/-- The keys of a property table. -/
def keysOf (ps : Props) : List String := ps.map Prod.fst

/-- Tables with pairwise distinct keys, the invariant JavaScript
own-property tables always satisfy. -/
abbrev nodupKeys (ps : Props) : Prop := (keysOf ps).Nodup

/-- The Exclusion Set of copyProps, the exact alternatives of the anchored
regular expression in the source. -/
def excludedName (m : String) : Bool :=
  ["constructor", "prototype", "arguments", "caller", "name", "bind",
   "call", "apply", "toString", "length"].contains m

/-- copyProps target source: walk the own properties of source in order
and defineProperty each one onto target, skipping the names matched by
the exclusion regular expression.  The walk is total: excluded names are
skipped silently, no failure path exists. -/
def copyProps : Props → Props → Props
  | t, [] => t
  | t, p :: rest =>
      copyProps (if excludedName p.1 then t else defineProp t p.1 p.2) rest

/-- The plain assignments a constructor body performs on this, in order.
Assignment overwrites and never filters. -/
def assignProps : Props → Props → Props
  | t, [] => t
  | t, p :: rest => assignProps (defineProp t p.1 p.2) rest

/-- A capability provider handed to aggregation: a parentless class with
an optional abstract guard (the literal string compared against
this.constructor.name), its per-instance field assignments, its prototype
members and its static members. -/
structure MixinCls where
  name : String
  guard : Option String
  fields : Props
  proto : Props
  statics : Props
deriving DecidableEq

/-- new m() on a mixin inside the aggregation constructor: the dynamic
constructor name is the mixin name itself, so a self-named guard fires. -/
def constructMixin (m : MixinCls) : Except String Props :=
  match m.guard with
  | some g =>
      if m.name = g then Except.error (g ++ " is abstract!")
      else Except.ok (assignProps [] m.fields)
  | none => Except.ok (assignProps [] m.fields)

/-- Whether new m() succeeds for a mixin. -/
def mixinConstructible (m : MixinCls) : Bool :=
  match m.guard with
  | some g => !(m.name == g)
  | none => true

/-- The own properties new m() produces when it succeeds. -/
def mixinInstProps (m : MixinCls) : Props := assignProps [] m.fields

/-- One level of a class inheritance chain: either a plain class body
with an optional abstract guard, instance field assignments, prototype
and static members, or the wrapper level the aggregation helper builds. -/
inductive Level : Type where
  | plainL (name : String) (guard : Option String)
      (fields : Props) (proto : Props) (statics : Props) : Level
  | aggregateL (name : String) (mixins : List MixinCls)
      (proto : Props) (statics : Props) : Level
deriving DecidableEq

/-- The declared name of a level. -/
def Level.lname : Level → String
  | .plainL n _ _ _ _ => n
  | .aggregateL n _ _ _ => n

/-- The prototype table of a level. -/
def Level.lproto : Level → Props
  | .plainL _ _ _ p _ => p
  | .aggregateL _ _ p _ => p

/-- The static table of a level. -/
def Level.lstatics : Level → Props
  | .plainL _ _ _ _ s => s
  | .aggregateL _ _ _ s => s

/-- A class is its inheritance chain, base level first, most derived
level last.  extends is list concatenation. -/
abbrev JClass := List Level

/-- The name of a class is the name of its most derived level; it is the
value of this.constructor.name while a direct instance is constructed. -/
def className : JClass → String
  | [] => ""
  | [l] => l.lname
  | _ :: rest => className rest

/-- Method lookup along the prototype chain, most derived level first. -/
def protoLookup : JClass → String → Option String
  | [], _ => none
  | l :: rest, m =>
      match protoLookup rest m with
      | some v => some v
      | none => getProp l.lproto m

/-- Static member lookup along the constructor chain, most derived level
first: class extends also chains the constructors themselves. -/
def staticLookup : JClass → String → Option String
  | [], _ => none
  | l :: rest, m =>
      match staticLookup rest m with
      | some v => some v
      | none => getProp l.lstatics m

/-- The loop in the aggregation wrapper constructor: instantiate each
mixin in list order and copyProps its own properties onto this.  A mixin
whose construction throws aborts the whole construction. -/
def runMixins : Props → List MixinCls → Except String Props
  | inst, [] => Except.ok inst
  | inst, m :: rest =>
      match constructMixin m with
      | Except.error e => Except.error e
      | Except.ok mp => runMixins (copyProps inst mp) rest

/-- Run one constructor level on this: a plain level first checks its
abstract guard against the dynamic constructor name, then performs its
field assignments; an aggregation level runs the mixin copying loop. -/
def runLevel (dynName : String) (inst : Props) : Level → Except String Props
  | .plainL _ g fields _ _ =>
      match g with
      | some gn =>
          if dynName = gn then Except.error (gn ++ " is abstract!")
          else Except.ok (assignProps inst fields)
      | none => Except.ok (assignProps inst fields)
  | .aggregateL _ mixins _ _ => runMixins inst mixins

/-- Run a constructor chain base level first: super runs before the
derived body, and the first failing level aborts construction. -/
def runLevels (dynName : String) : Props → JClass → Except String Props
  | inst, [] => Except.ok inst
  | inst, l :: rest =>
      match runLevel dynName inst l with
      | Except.error e => Except.error e
      | Except.ok inst2 => runLevels dynName inst2 rest

/-- new C(): construct a direct instance of a class, running its whole
constructor chain under its own dynamic name. -/
def construct (c : JClass) : Except String Props :=
  runLevels (className c) [] c

/-- Merge a chosen table of each mixin onto an accumulator via copyProps,
in list order, so later mixins overwrite earlier ones. -/
def mergeAll (f : MixinCls → Props) : Props → List MixinCls → Props
  | acc, [] => acc
  | acc, m :: rest => mergeAll f (copyProps acc (f m)) rest

/-- The binding the last mixin in the list that defines a key gives it,
in a chosen table. -/
def lastDef (f : MixinCls → Props) : List MixinCls → String → Option String
  | [], _ => none
  | m :: rest, key =>
      match lastDef f rest key with
      | some v => some v
      | none => getProp (f m) key

/-- The aggregation helper of the source: extend the base class with a
wrapper level named base whose constructor instantiates and copies each
mixin, and whose prototype and static tables receive each mixin
prototype and static table in list order, filtered by the Exclusion Set.
The type-level copying happens here, at composition time, once. -/
def aggregation (baseClass : JClass) (mixins : List MixinCls) : JClass :=
  baseClass ++ [Level.aggregateL "base" mixins
    (mergeAll (fun m => m.proto) [] mixins)
    (mergeAll (fun m => m.statics) [] mixins)]

/-- The abstract Machine class of the interface-segregation example. -/
def Machine : JClass :=
  [Level.plainL "Machine" (some "Machine") []
    [("print", "Machine.print"), ("fax", "Machine.fax"),
     ("scan", "Machine.scan")] []]

/-- MultiFunctionPrinter extends Machine and overrides all three
operations. -/
def MultiFunctionPrinter : JClass :=
  Machine ++
    [Level.plainL "MultiFunctionPrinter" none []
      [("print", "MultiFunctionPrinter.print"),
       ("fax", "MultiFunctionPrinter.fax"),
       ("scan", "MultiFunctionPrinter.scan")] []]

/-- The abstract Printer class: guard plus a print method. -/
def Printer : JClass :=
  [Level.plainL "Printer" (some "Printer") []
    [("print", "Printer.print")] []]

/-- The abstract Scanner class used as a capability provider: a
self-named guard plus a scan method. -/
def Scanner : MixinCls :=
  ⟨"Scanner", some "Scanner", [], [("scan", "Scanner.scan")], []⟩

/-- Photocopier extends aggregation(Printer, Scanner) and overrides print
and scan on its own prototype. -/
def Photocopier : JClass :=
  aggregation Printer [Scanner] ++
    [Level.plainL "Photocopier" none []
      [("print", "Photocopier.print"), ("scan", "Photocopier.scan")] []]

/-- The abstract RelationshipBrowser class of the dependency-inversion
example: a self-named guard and a stub query method. -/
def RelationshipBrowserC : JClass :=
  [Level.plainL "RelationshipBrowser" (some "RelationshipBrowser") []
    [("findAllChildrenOf", "RelationshipBrowser.findAllChildrenOf")] []]

/-- Relationships extends RelationshipBrowser, assigns this.data = [] and
implements the query methods on its prototype. -/
def RelationshipsC : JClass :=
  RelationshipBrowserC ++
    [Level.plainL "Relationships" none [("data", "[]")]
      [("addParentAndChild", "Relationships.addParentAndChild"),
       ("findAllChildrenOf", "Relationships.findAllChildrenOf")] []]

/-- A base class for exercising the copy order: its constructor assigns
this.x. -/
def plainBaseX : JClass :=
  [Level.plainL "BaseX" none [("x", "BaseX.x")] [] []]

/-- A guard-free provider whose constructor also assigns this.x. -/
def overwriteMixinX : MixinCls :=
  ⟨"MixX", none, [("x", "MixX.x")], [], []⟩

/-- A strict descendant of Machine that also bears the class name
Machine, as a JavaScript class expression can: the inherited guard then
fires even though the constructed object is of a strict descendant. -/
def machineImpostor : JClass :=
  Machine ++ [Level.plainL "Machine" none [] [] []]

/-- A base class whose guard string is the wrapper name base, so that
running its constructor chain inside a composite fails. -/
def baseNamedTrap : JClass :=
  [Level.plainL "base" (some "base") [] [] []]

/-- A guard-free provider named A defining report at instance, prototype
and static level. -/
def reportMixinA : MixinCls :=
  ⟨"A", none, [("report", "A.instance.report")],
   [("report", "A.proto.report")], [("report", "A.static.report")]⟩

/-- A guard-free provider named B defining report at instance, prototype
and static level. -/
def reportMixinB : MixinCls :=
  ⟨"B", none, [("report", "B.instance.report")],
   [("report", "B.proto.report")], [("report", "B.static.report")]⟩

/-- A provider whose member names collide with the Exclusion Set. -/
def evilMixin : MixinCls :=
  ⟨"Evil", none, [("toString", "Evil.instance.toString")],
   [("toString", "Evil.proto.toString"),
    ("constructor", "Evil.proto.constructor")],
   [("name", "Evil.static.name")]⟩

/-- A person of the dependency-inversion example. -/
structure Person where
  name : String
deriving DecidableEq

/-- The frozen Relationship enumeration. -/
inductive RelType : Type where
  | parent
  | child
  | sibling
deriving DecidableEq, BEq

/-- One stored relationship record. -/
structure Rel where
  from' : Person
  type' : RelType
  to' : Person
deriving DecidableEq

/-- The low-level storage module. -/
structure Relationships where
  data : List Rel
deriving DecidableEq

/-- addParentAndChild pushes one parent record and one child record. -/
def Relationships.addParentAndChild
    (r : Relationships) (p c : Person) : Relationships :=
  ⟨r.data ++ [⟨p, RelType.parent, c⟩, ⟨c, RelType.child, p⟩]⟩

/-- findAllChildrenOf filters the records whose source name matches and
whose type is parent, and maps them to their targets. -/
def Relationships.findAllChildrenOf
    (r : Relationships) (nm : String) : List Person :=
  (r.data.filter
      (fun rel => rel.from'.name == nm && rel.type' == RelType.parent)).map
    Rel.to'

/-- A duck-typed object handed to the Research constructor: JavaScript
imposes no contract on the argument, so the query slot may be absent. -/
structure Browser where
  findAllChildrenOf : Option (String → List Person)

/-- A Relationships store viewed through the capability contract. -/
def Relationships.toBrowser (r : Relationships) : Browser :=
  ⟨some r.findAllChildrenOf⟩

/-- The Research constructor: it immediately queries
browser.findAllChildrenOf with John and logs one line per child.  When
the slot is absent, the method call itself raises a TypeError before any
line is produced. -/
def Research.make (browser : Browser) : Except String (List String) :=
  match browser.findAllChildrenOf with
  | none =>
      Except.error "TypeError: browser.findAllChildrenOf is not a function"
  | some f =>
      Except.ok ((f "John").map (fun p => "John has a child named " ++ p.name))

/-- The John person of the example main code. -/
def johnP : Person := ⟨"John"⟩

/-- The Chris person of the example main code. -/
def chrisP : Person := ⟨"Chris"⟩

/-- The Matt person of the example main code. -/
def mattP : Person := ⟨"Matt"⟩

/-- The store built by the example main code. -/
def rels0 : Relationships :=
  ((⟨[]⟩ : Relationships).addParentAndChild johnP chrisP).addParentAndChild
    johnP mattP

/-- A second store holding the same parent and child records plus one
sibling record, which no children query ever selects: both stores give
semantically equivalent query results. -/
def rels1 : Relationships :=
  ⟨rels0.data ++ [⟨chrisP, RelType.sibling, mattP⟩]⟩

theorem getProp_defineProp (ps : Props) (k v j : String) :
    getProp (defineProp ps k v) j = if k = j then some v else getProp ps j := by
  induction ps with
  | nil =>
      by_cases h : k = j <;> simp [defineProp, getProp, h]
  | cons p rest ih =>
      obtain ⟨k1, v1⟩ := p
      by_cases h1 : k1 = k
      · subst h1
        by_cases h2 : k1 = j <;> simp [defineProp, getProp, h2]
      · by_cases h2 : k1 = j
        · subst h2
          have hkj : ¬ k = k1 := fun hh => h1 hh.symm
          simp [defineProp, h1, getProp, hkj]
        · simp [defineProp, h1, getProp, h2, ih]

theorem getProp_eq_none (ps : Props) (m : String) (h : m ∉ keysOf ps) :
    getProp ps m = none := by
  induction ps with
  | nil => rfl
  | cons p rest ih =>
      simp [keysOf] at h
      push_neg at h
      obtain ⟨h1, h2⟩ := h
      have : ¬ p.1 = m := fun hh => h1 hh.symm
      obtain ⟨k1, v1⟩ := p
      simp [getProp, this]
      exact ih (by simpa [keysOf] using h2)

theorem keysOf_defineProp (ps : Props) (k v : String) :
    keysOf (defineProp ps k v) =
      if k ∈ keysOf ps then keysOf ps else keysOf ps ++ [k] := by
  induction ps with
  | nil => simp [defineProp, keysOf]
  | cons p rest ih =>
      obtain ⟨k1, v1⟩ := p
      by_cases h : k1 = k
      · subst h
        simp [defineProp, keysOf]
      · have hne : ¬ k = k1 := fun hh => h hh.symm
        by_cases h2 : k ∈ keysOf rest
        · simp only [keysOf] at h2
          simp [defineProp, h, keysOf, List.mem_cons, hne, h2] at ih ⊢
          exact ih
        · simp only [keysOf] at h2
          simp [defineProp, h, keysOf, List.mem_cons, hne, h2] at ih ⊢
          exact ih

theorem nodupKeys_defineProp (ps : Props) (k v : String) (h : nodupKeys ps) :
    nodupKeys (defineProp ps k v) := by
  unfold nodupKeys at *
  rw [keysOf_defineProp]
  by_cases hk : k ∈ keysOf ps
  · simpa [hk] using h
  · simp only [hk, if_false]
    simp [List.nodup_append, h, hk]

theorem nodupKeys_assignProps (fs t : Props) (h : nodupKeys t) :
    nodupKeys (assignProps t fs) := by
  induction fs generalizing t with
  | nil => exact h
  | cons p rest ih => exact ih _ (nodupKeys_defineProp _ _ _ h)

theorem nodupKeys_mixinInstProps (m : MixinCls) : nodupKeys (mixinInstProps m) := by
  unfold mixinInstProps
  exact nodupKeys_assignProps _ _ (by simp [nodupKeys, keysOf])
theorem nodupKeys_cons (k : String) (v : String) (rest : Props)
    (h : nodupKeys ((k, v) :: rest)) :
    k ∉ keysOf rest ∧ nodupKeys rest := by
  simpa [nodupKeys, keysOf] using h

theorem getProp_copyProps_excluded (s t : Props) (key : String)
    (hk : excludedName key = true) :
    getProp (copyProps t s) key = getProp t key := by
  induction s generalizing t with
  | nil => rfl
  | cons p rest ih =>
      obtain ⟨k1, v1⟩ := p
      by_cases he : excludedName k1
      · simpa [copyProps, he] using ih t
      · have hne : ¬ k1 = key := by
          intro hh; rw [hh] at he; exact he hk
        rw [show copyProps t ((k1, v1) :: rest) =
              copyProps (defineProp t k1 v1) rest by simp [copyProps, he]]
        rw [ih (defineProp t k1 v1)]
        rw [getProp_defineProp]
        simp [hne]

theorem getProp_copyProps (s t : Props) (key : String)
    (hs : nodupKeys s) (hk : excludedName key = false) :
    getProp (copyProps t s) key =
      match getProp s key with
      | some v => some v
      | none => getProp t key := by
  induction s generalizing t with
  | nil => simp [copyProps, getProp]
  | cons p rest ih =>
      obtain ⟨k1, v1⟩ := p
      obtain ⟨hmem, hnd⟩ := nodupKeys_cons k1 v1 rest hs
      by_cases hkey : k1 = key
      · subst hkey
        have hrest : getProp rest k1 = none := getProp_eq_none _ _ hmem
        have he : excludedName k1 = false := hk
        rw [show copyProps t ((k1, v1) :: rest) =
              copyProps (defineProp t k1 v1) rest by simp [copyProps, he]]
        rw [ih _ hnd]
        simp [getProp, hrest, getProp_defineProp]
      · by_cases he : excludedName k1
        · rw [show copyProps t ((k1, v1) :: rest) = copyProps t rest by
              simp [copyProps, he]]
          rw [ih _ hnd]
          simp [getProp, hkey]
        · rw [show copyProps t ((k1, v1) :: rest) =
                copyProps (defineProp t k1 v1) rest by simp [copyProps, he]]
          rw [ih _ hnd]
          simp only [getProp, if_neg hkey]
          cases hr : getProp rest key with
          | some v => simp
          | none => simp [getProp_defineProp, hkey]

theorem getProp_assignProps (fs t : Props) (key : String)
    (hf : nodupKeys fs) :
    getProp (assignProps t fs) key =
      match getProp fs key with
      | some v => some v
      | none => getProp t key := by
  induction fs generalizing t with
  | nil => simp [assignProps, getProp]
  | cons p rest ih =>
      obtain ⟨k1, v1⟩ := p
      obtain ⟨hmem, hnd⟩ := nodupKeys_cons k1 v1 rest hf
      rw [show assignProps t ((k1, v1) :: rest) =
            assignProps (defineProp t k1 v1) rest by simp [assignProps]]
      rw [ih _ hnd]
      by_cases hkey : k1 = key
      · subst hkey
        have hrest : getProp rest k1 = none := getProp_eq_none _ _ hmem
        simp [getProp, hrest, getProp_defineProp]
      · simp only [getProp, if_neg hkey]
        cases hr : getProp rest key with
        | some v => simp
        | none => simp [getProp_defineProp, hkey]

theorem getProp_mixinInstProps (m : MixinCls) (key : String)
    (hf : nodupKeys m.fields) :
    getProp (mixinInstProps m) key = getProp m.fields key := by
  unfold mixinInstProps
  rw [getProp_assignProps _ _ _ hf]
  cases getProp m.fields key <;> simp [getProp]

theorem getProp_mergeAll_excluded (f : MixinCls → Props)
    (ms : List MixinCls) (acc : Props) (key : String)
    (hk : excludedName key = true) :
    getProp (mergeAll f acc ms) key = getProp acc key := by
  induction ms generalizing acc with
  | nil => rfl
  | cons m rest ih =>
      rw [show mergeAll f acc (m :: rest) =
            mergeAll f (copyProps acc (f m)) rest from rfl]
      rw [ih]
      exact getProp_copyProps_excluded _ _ _ hk

theorem getProp_mergeAll (f : MixinCls → Props)
    (ms : List MixinCls) (acc : Props) (key : String)
    (hnd : ∀ m ∈ ms, nodupKeys (f m)) (hk : excludedName key = false) :
    getProp (mergeAll f acc ms) key =
      match lastDef f ms key with
      | some v => some v
      | none => getProp acc key := by
  induction ms generalizing acc with
  | nil => simp [mergeAll, lastDef]
  | cons m rest ih =>
      have h1 : nodupKeys (f m) := hnd m (by simp)
      have h2 : ∀ x ∈ rest, nodupKeys (f x) := fun x hx => hnd x (by simp [hx])
      rw [show mergeAll f acc (m :: rest) =
            mergeAll f (copyProps acc (f m)) rest from rfl]
      rw [ih (copyProps acc (f m)) h2]
      rw [show lastDef f (m :: rest) key =
            (match lastDef f rest key with
             | some v => some v
             | none => getProp (f m) key) from rfl]
      cases hl : lastDef f rest key with
      | some v => simp
      | none =>
          simp only
          rw [getProp_copyProps _ _ _ h1 hk]
theorem constructMixin_ok (m : MixinCls) (h : mixinConstructible m = true) :
    constructMixin m = Except.ok (mixinInstProps m) := by
  unfold constructMixin mixinConstructible at *
  cases hg : m.guard with
  | none => simp [mixinInstProps]
  | some g =>
      rw [hg] at h
      simp only [Bool.not_eq_true'] at h
      have : ¬ m.name = g := by
        intro hh
        rw [hh] at h
        simp at h
      simp [this, mixinInstProps]

theorem constructMixin_guard_fires (m : MixinCls) (h : m.guard = some m.name) :
    constructMixin m = Except.error (m.name ++ " is abstract!") := by
  unfold constructMixin
  rw [h]
  simp

theorem runMixins_ok (ms : List MixinCls) (inst : Props)
    (h : ∀ m ∈ ms, mixinConstructible m = true) :
    runMixins inst ms = Except.ok (mergeAll mixinInstProps inst ms) := by
  induction ms generalizing inst with
  | nil => rfl
  | cons m rest ih =>
      rw [show runMixins inst (m :: rest) =
            (match constructMixin m with
             | Except.error e => Except.error e
             | Except.ok mp => runMixins (copyProps inst mp) rest) from rfl]
      rw [constructMixin_ok m (h m (by simp))]
      rw [show mergeAll mixinInstProps inst (m :: rest) =
            mergeAll mixinInstProps (copyProps inst (mixinInstProps m)) rest
          from rfl]
      exact ih _ (fun x hx => h x (by simp [hx]))

theorem runMixins_error (ms1 : List MixinCls) (g : MixinCls)
    (ms2 : List MixinCls) (inst : Props) (e : String)
    (h1 : ∀ m ∈ ms1, mixinConstructible m = true)
    (hg : constructMixin g = Except.error e) :
    runMixins inst (ms1 ++ g :: ms2) = Except.error e := by
  induction ms1 generalizing inst with
  | nil =>
      rw [show ([] : List MixinCls) ++ g :: ms2 = g :: ms2 from rfl]
      rw [show runMixins inst (g :: ms2) =
            (match constructMixin g with
             | Except.error e => Except.error e
             | Except.ok mp => runMixins (copyProps inst mp) ms2) from rfl]
      rw [hg]
  | cons m rest ih =>
      rw [show (m :: rest) ++ g :: ms2 = m :: (rest ++ g :: ms2) from rfl]
      rw [show runMixins inst (m :: (rest ++ g :: ms2)) =
            (match constructMixin m with
             | Except.error e => Except.error e
             | Except.ok mp => runMixins (copyProps inst mp) (rest ++ g :: ms2))
          from rfl]
      rw [constructMixin_ok m (h1 m (by simp))]
      exact ih (copyProps inst (mixinInstProps m)) (fun x hx => h1 x (by simp [hx]))

theorem runLevels_append (dn : String) (inst : Props) (xs ys : JClass) :
    runLevels dn inst (xs ++ ys) =
      match runLevels dn inst xs with
      | Except.error e => Except.error e
      | Except.ok i2 => runLevels dn i2 ys := by
  induction xs generalizing inst with
  | nil => simp [runLevels]
  | cons l rest ih =>
      rw [show (l :: rest) ++ ys = l :: (rest ++ ys) from rfl]
      rw [show runLevels dn inst (l :: (rest ++ ys)) =
            (match runLevel dn inst l with
             | Except.error e => Except.error e
             | Except.ok i2 => runLevels dn i2 (rest ++ ys)) from rfl]
      rw [show runLevels dn inst (l :: rest) =
            (match runLevel dn inst l with
             | Except.error e => Except.error e
             | Except.ok i2 => runLevels dn i2 rest) from rfl]
      cases runLevel dn inst l with
      | error e => simp
      | ok i2 => simp [ih]

theorem className_concat (xs : JClass) (l : Level) :
    className (xs ++ [l]) = l.lname := by
  induction xs with
  | nil => rfl
  | cons x rest ih =>
      cases rest with
      | nil => rfl
      | cons y t =>
          rw [show (x :: y :: t) ++ [l] = x :: ((y :: t) ++ [l]) from rfl]
          rw [show (y :: t) ++ [l] = y :: (t ++ [l]) from rfl]
          rw [show className (x :: y :: (t ++ [l])) =
                className (y :: (t ++ [l])) from rfl]
          rw [show y :: (t ++ [l]) = (y :: t) ++ [l] from rfl]
          exact ih

theorem protoLookup_append (xs ys : JClass) (m : String) :
    protoLookup (xs ++ ys) m =
      match protoLookup ys m with
      | some v => some v
      | none => protoLookup xs m := by
  induction xs with
  | nil =>
      rw [List.nil_append]
      cases h : protoLookup ys m <;> simp [protoLookup, h]
  | cons l rest ih =>
      rw [show (l :: rest) ++ ys = l :: (rest ++ ys) from rfl]
      rw [show protoLookup (l :: (rest ++ ys)) m =
            (match protoLookup (rest ++ ys) m with
             | some v => some v
             | none => getProp l.lproto m) from rfl]
      rw [ih]
      rw [show protoLookup (l :: rest) m =
            (match protoLookup rest m with
             | some v => some v
             | none => getProp l.lproto m) from rfl]
      cases protoLookup ys m <;> cases protoLookup rest m <;> simp

theorem staticLookup_append (xs ys : JClass) (m : String) :
    staticLookup (xs ++ ys) m =
      match staticLookup ys m with
      | some v => some v
      | none => staticLookup xs m := by
  induction xs with
  | nil =>
      rw [List.nil_append]
      cases h : staticLookup ys m <;> simp [staticLookup, h]
  | cons l rest ih =>
      rw [show (l :: rest) ++ ys = l :: (rest ++ ys) from rfl]
      rw [show staticLookup (l :: (rest ++ ys)) m =
            (match staticLookup (rest ++ ys) m with
             | some v => some v
             | none => getProp l.lstatics m) from rfl]
      rw [ih]
      rw [show staticLookup (l :: rest) m =
            (match staticLookup rest m with
             | some v => some v
             | none => getProp l.lstatics m) from rfl]
      cases staticLookup ys m <;> cases staticLookup rest m <;> simp

theorem construct_aggregation (B : JClass) (ms : List MixinCls) :
    construct (aggregation B ms) =
      match runLevels "base" [] B with
      | Except.error e => Except.error e
      | Except.ok bp => runMixins bp ms := by
  unfold construct aggregation
  rw [className_concat]
  simp only [Level.lname]
  rw [runLevels_append]
  cases runLevels "base" ([] : Props) B with
  | error e => simp
  | ok bp =>
      simp only
      rw [show runLevels "base" bp
            [Level.aggregateL "base" ms
              (mergeAll (fun m => m.proto) [] ms)
              (mergeAll (fun m => m.statics) [] ms)] =
            (match runMixins bp ms with
             | Except.error e => Except.error e
             | Except.ok i2 => Except.ok i2) from rfl]
      cases runMixins bp ms <;> simp

theorem construct_aggregation_ok (B : JClass) (ms : List MixinCls) (bp : Props)
    (hB : runLevels "base" [] B = Except.ok bp)
    (hok : ∀ m ∈ ms, mixinConstructible m = true) :
    construct (aggregation B ms) =
      Except.ok (mergeAll mixinInstProps bp ms) := by
  rw [construct_aggregation, hB]
  simp only
  exact runMixins_ok ms bp hok

theorem protoLookup_aggregation (B : JClass) (ms : List MixinCls)
    (key : String) (hnd : ∀ m ∈ ms, nodupKeys m.proto)
    (hk : excludedName key = false) :
    protoLookup (aggregation B ms) key =
      match lastDef (fun m => m.proto) ms key with
      | some v => some v
      | none => protoLookup B key := by
  unfold aggregation
  rw [protoLookup_append]
  rw [show protoLookup
        [Level.aggregateL "base" ms
          (mergeAll (fun m => m.proto) [] ms)
          (mergeAll (fun m => m.statics) [] ms)] key =
        getProp (mergeAll (fun m => m.proto) [] ms) key from rfl]
  rw [getProp_mergeAll (fun m => m.proto) ms [] key hnd hk]
  cases lastDef (fun m => m.proto) ms key <;> simp [getProp]

theorem staticLookup_aggregation (B : JClass) (ms : List MixinCls)
    (key : String) (hnd : ∀ m ∈ ms, nodupKeys m.statics)
    (hk : excludedName key = false) :
    staticLookup (aggregation B ms) key =
      match lastDef (fun m => m.statics) ms key with
      | some v => some v
      | none => staticLookup B key := by
  unfold aggregation
  rw [staticLookup_append]
  rw [show staticLookup
        [Level.aggregateL "base" ms
          (mergeAll (fun m => m.proto) [] ms)
          (mergeAll (fun m => m.statics) [] ms)] key =
        getProp (mergeAll (fun m => m.statics) [] ms) key from rfl]
  rw [getProp_mergeAll (fun m => m.statics) ms [] key hnd hk]
  cases lastDef (fun m => m.statics) ms key <;> simp [getProp]

theorem protoLookup_aggregation_excluded (B : JClass) (ms : List MixinCls)
    (key : String) (hk : excludedName key = true) :
    protoLookup (aggregation B ms) key = protoLookup B key := by
  unfold aggregation
  rw [protoLookup_append]
  rw [show protoLookup
        [Level.aggregateL "base" ms
          (mergeAll (fun m => m.proto) [] ms)
          (mergeAll (fun m => m.statics) [] ms)] key =
        getProp (mergeAll (fun m => m.proto) [] ms) key from rfl]
  rw [getProp_mergeAll_excluded _ _ _ _ hk]
  simp [getProp]

theorem staticLookup_aggregation_excluded (B : JClass) (ms : List MixinCls)
    (key : String) (hk : excludedName key = true) :
    staticLookup (aggregation B ms) key = staticLookup B key := by
  unfold aggregation
  rw [staticLookup_append]
  rw [show staticLookup
        [Level.aggregateL "base" ms
          (mergeAll (fun m => m.proto) [] ms)
          (mergeAll (fun m => m.statics) [] ms)] key =
        getProp (mergeAll (fun m => m.statics) [] ms) key from rfl]
  rw [getProp_mergeAll_excluded _ _ _ _ hk]
  simp [getProp]
theorem runLevels_Machine (n : String) :
    runLevels n [] Machine =
      if n = "Machine" then Except.error "Machine is abstract!"
      else Except.ok [] := by
  by_cases h : n = "Machine" <;>
    simp [Machine, runLevels, runLevel, h, assignProps]

/-- Claim C1, counterexample: the composite of the Printer base and the
Scanner capability admits no instance at all, because the wrapper
constructor instantiates Scanner directly and its abstract guard fires;
the same holds for Photocopier.  Hence neither print nor scan can be
invoked on an instance of the composite, as none exists. -/
theorem claimC1_counterexample :
    construct (aggregation Printer [Scanner]) =
      Except.error "Scanner is abstract!" ∧
    construct Photocopier = Except.error "Scanner is abstract!" := ⟨rfl, rfl⟩

/-- Claim C1, amended: when every capability provider in the list can be
constructed with zero arguments and the base constructor chain succeeds,
the composite is constructible and every non-excluded member of the base
and of the providers is reachable on it, each resolving to the
implementation of its own provider with last-wins precedence; for the
Printer and Scanner scenario the union holds at the prototype level of
the composite type, with print dispatching to Printer and scan to
Scanner, even though instance construction itself fails. -/
theorem claimC1_amended (B : JClass) (ms : List MixinCls) (bp : Props)
    (key : String)
    (hB : runLevels "base" [] B = Except.ok bp)
    (hok : ∀ m ∈ ms, mixinConstructible m = true)
    (hnd : ∀ m ∈ ms, nodupKeys m.proto)
    (hk : excludedName key = false) :
    construct (aggregation B ms) =
      Except.ok (mergeAll mixinInstProps bp ms) ∧
    (∀ v, lastDef (fun m => m.proto) ms key = some v →
      protoLookup (aggregation B ms) key = some v) ∧
    (lastDef (fun m => m.proto) ms key = none →
      protoLookup (aggregation B ms) key = protoLookup B key) ∧
    protoLookup (aggregation Printer [Scanner]) "print" =
      some "Printer.print" ∧
    protoLookup (aggregation Printer [Scanner]) "scan" =
      some "Scanner.scan" := by
  refine ⟨construct_aggregation_ok B ms bp hB hok, ?_, ?_, rfl, rfl⟩
  · intro v hv
    rw [protoLookup_aggregation B ms key hnd hk, hv]
  · intro hv
    rw [protoLookup_aggregation B ms key hnd hk, hv]

/-- Witness for claim C1 at a constructible provider: the composite of
Printer and a guard-free provider A is constructible, owns the copied
instance member, and resolves both the provider method and the base
method. -/
theorem claimC1_witness :
    construct (aggregation Printer [reportMixinA]) =
      Except.ok [("report", "A.instance.report")] ∧
    protoLookup (aggregation Printer [reportMixinA]) "report" =
      some "A.proto.report" ∧
    protoLookup (aggregation Printer [reportMixinA]) "print" =
      some "Printer.print" := by
  have h := claimC1_amended Printer [reportMixinA] [] "report" rfl
    (by decide) (by decide) (by decide)
  have h2 := claimC1_amended Printer [reportMixinA] [] "print" rfl
    (by decide) (by decide) (by decide)
  exact ⟨h.1, h.2.1 "A.proto.report" rfl, h2.2.2.1 rfl⟩

/-- Claim C2: last wins.  If two providers both define a non-excluded
member, the composite resolves it to the later provider, at prototype,
static and instance level, and reversing the list reverses the outcome;
in general a member resolves to the last provider in the list that
defines it. -/
theorem claimC2_last_wins (B : JClass) (ci cj : MixinCls)
    (ms : List MixinCls) (bp : Props) (key : String)
    (hB : runLevels "base" [] B = Except.ok bp)
    (hk : excludedName key = false)
    (hpi : nodupKeys ci.proto) (hpj : nodupKeys cj.proto)
    (hsi : nodupKeys ci.statics) (hsj : nodupKeys cj.statics)
    (hfj : nodupKeys cj.fields)
    (hci : mixinConstructible ci = true)
    (hcj : mixinConstructible cj = true)
    (hnd : ∀ m ∈ ms, nodupKeys m.proto) :
    (∀ vj, getProp cj.proto key = some vj →
      protoLookup (aggregation B [ci, cj]) key = some vj) ∧
    (∀ vi, getProp ci.proto key = some vi →
      protoLookup (aggregation B [cj, ci]) key = some vi) ∧
    (∀ vj, getProp cj.statics key = some vj →
      staticLookup (aggregation B [ci, cj]) key = some vj) ∧
    (∀ vj, getProp cj.fields key = some vj →
      construct (aggregation B [ci, cj]) =
        Except.ok (mergeAll mixinInstProps bp [ci, cj]) ∧
      getProp (mergeAll mixinInstProps bp [ci, cj]) key = some vj) ∧
    (∀ v, lastDef (fun m => m.proto) ms key = some v →
      protoLookup (aggregation B ms) key = some v) := by
  have hp2 : ∀ m ∈ [ci, cj], nodupKeys m.proto := by
    intro m hm
    simp only [List.mem_cons, List.not_mem_nil, or_false] at hm
    rcases hm with rfl | rfl
    · exact hpi
    · exact hpj
  have hp2r : ∀ m ∈ [cj, ci], nodupKeys m.proto := by
    intro m hm
    simp only [List.mem_cons, List.not_mem_nil, or_false] at hm
    rcases hm with rfl | rfl
    · exact hpj
    · exact hpi
  have hs2 : ∀ m ∈ [ci, cj], nodupKeys m.statics := by
    intro m hm
    simp only [List.mem_cons, List.not_mem_nil, or_false] at hm
    rcases hm with rfl | rfl
    · exact hsi
    · exact hsj
  have hc2 : ∀ m ∈ [ci, cj], mixinConstructible m = true := by
    intro m hm
    simp only [List.mem_cons, List.not_mem_nil, or_false] at hm
    rcases hm with rfl | rfl
    · exact hci
    · exact hcj
  refine ⟨?_, ?_, ?_, ?_, ?_⟩
  · intro vj hv
    rw [protoLookup_aggregation B [ci, cj] key hp2 hk]
    simp [lastDef, hv]
  · intro vi hv
    rw [protoLookup_aggregation B [cj, ci] key hp2r hk]
    simp [lastDef, hv]
  · intro vj hv
    rw [staticLookup_aggregation B [ci, cj] key hs2 hk]
    simp [lastDef, hv]
  · intro vj hv
    refine ⟨construct_aggregation_ok B [ci, cj] bp hB hc2, ?_⟩
    rw [getProp_mergeAll mixinInstProps [ci, cj] bp key
        (fun m _ => nodupKeys_mixinInstProps m) hk]
    have : getProp (mixinInstProps cj) key = some vj := by
      rw [getProp_mixinInstProps cj key hfj]
      exact hv
    simp [lastDef, this]
  · intro v hv
    rw [protoLookup_aggregation B ms key hnd hk, hv]

/-- Witness for claim C2: with providers A and B both defining report,
composing in order A then B resolves report to B at prototype, static
and instance level, while the reversed order resolves it to A; with the
list A, B, A the last definer A wins. -/
theorem claimC2_witness :
    protoLookup (aggregation Printer [reportMixinA, reportMixinB])
      "report" = some "B.proto.report" ∧
    protoLookup (aggregation Printer [reportMixinB, reportMixinA])
      "report" = some "A.proto.report" ∧
    staticLookup (aggregation Printer [reportMixinA, reportMixinB])
      "report" = some "B.static.report" ∧
    construct (aggregation Printer [reportMixinA, reportMixinB]) =
      Except.ok [("report", "B.instance.report")] ∧
    protoLookup
      (aggregation Printer [reportMixinA, reportMixinB, reportMixinA])
      "report" = some "A.proto.report" := by
  have h := claimC2_last_wins Printer reportMixinA reportMixinB
    [reportMixinA, reportMixinB, reportMixinA] [] "report" rfl
    (by decide) (by decide) (by decide) (by decide) (by decide) (by decide)
    (by decide) (by decide) (by decide)
  exact ⟨h.1 "B.proto.report" rfl, h.2.1 "A.proto.report" rfl,
    h.2.2.1 "B.static.report" rfl,
    (h.2.2.2.1 "B.instance.report" rfl).1,
    h.2.2.2.2 "A.proto.report" rfl⟩

/-- Claim C3, counterexample: the base constructor assigns x, the
provider also assigns x, and the constructed composite instance carries
the provider version, not the base version: defineProperty in copyProps
silently overwrites members the base construction already placed on the
instance, so base does not take precedence. -/
theorem claimC3_counterexample :
    runLevels "base" [] plainBaseX = Except.ok [("x", "BaseX.x")] ∧
    construct (aggregation plainBaseX [overwriteMixinX]) =
      Except.ok [("x", "MixX.x")] := ⟨rfl, rfl⟩

/-- Claim C3, amended: the per-instance copy gives the provider
precedence, not the base: every non-excluded own member of the provider
instance is written onto the composite instance, overwriting a
same-named member the base construction placed there, and only member
names the provider does not define keep their base value. -/
theorem claimC3_amended (B : JClass) (mx : MixinCls) (bp : Props)
    (key : String)
    (hB : runLevels "base" [] B = Except.ok bp)
    (hok : mixinConstructible mx = true)
    (hnd : nodupKeys mx.fields)
    (hk : excludedName key = false) :
    construct (aggregation B [mx]) =
      Except.ok (copyProps bp (mixinInstProps mx)) ∧
    (∀ v, getProp mx.fields key = some v →
      getProp (copyProps bp (mixinInstProps mx)) key = some v) ∧
    (getProp mx.fields key = none →
      getProp (copyProps bp (mixinInstProps mx)) key = getProp bp key) := by
  have hall : ∀ m ∈ [mx], mixinConstructible m = true := by
    intro m hm
    simp only [List.mem_cons, List.not_mem_nil, or_false] at hm
    subst hm
    exact hok
  refine ⟨construct_aggregation_ok B [mx] bp hB hall, ?_, ?_⟩
  · intro v hv
    rw [getProp_copyProps (mixinInstProps mx) bp key
        (nodupKeys_mixinInstProps mx) hk]
    rw [getProp_mixinInstProps mx key hnd, hv]
  · intro hv
    rw [getProp_copyProps (mixinInstProps mx) bp key
        (nodupKeys_mixinInstProps mx) hk]
    rw [getProp_mixinInstProps mx key hnd, hv]

/-- Witness for claim C3: on the concrete base and provider both
assigning x, the composite instance holds the provider value for x,
while a name the provider does not define keeps its base value. -/
theorem claimC3_witness :
    construct (aggregation plainBaseX [overwriteMixinX]) =
      Except.ok [("x", "MixX.x")] ∧
    getProp (copyProps [("x", "BaseX.x")] (mixinInstProps overwriteMixinX))
      "x" = some "MixX.x" ∧
    getProp (copyProps [("x", "BaseX.x")] (mixinInstProps overwriteMixinX))
      "y" = getProp [("x", "BaseX.x")] "y" := by
  have h := claimC3_amended plainBaseX overwriteMixinX [("x", "BaseX.x")]
    "x" rfl (by decide) (by decide) (by decide)
  have h2 := claimC3_amended plainBaseX overwriteMixinX [("x", "BaseX.x")]
    "y" rfl (by decide) (by decide) (by decide)
  exact ⟨h.1, h.2.1 "MixX.x" rfl, h2.2.2 rfl⟩

/-- Claim C4, counterexample: the guard inspects the dynamic class name,
not the dynamic class identity, so a strict descendant of Machine that
also bears the class name Machine is rejected by the inherited guard,
refuting that construction passes for every strict descendant. -/
theorem claimC4_counterexample :
    machineImpostor = Machine ++ [Level.plainL "Machine" none [] [] []] ∧
    machineImpostor ≠ Machine ∧
    construct machineImpostor = Except.error "Machine is abstract!" := by
  exact ⟨rfl, by decide, rfl⟩

/-- Claim C4, amended: the guard fires exactly when the dynamic class
NAME of the object under construction equals the literal name of the
abstract class: a class extending Machine constructs successfully if and
only if its own name differs from Machine; in particular constructing
Machine directly fails, MultiFunctionPrinter succeeds, and likewise
RelationshipBrowser fails while Relationships succeeds. -/
theorem claimC4_amended (n : String) (fields proto statics : Props) :
    construct (Machine ++ [Level.plainL n none fields proto statics]) =
      (if n = "Machine" then Except.error "Machine is abstract!"
       else Except.ok (assignProps [] fields)) ∧
    construct Machine = Except.error "Machine is abstract!" ∧
    construct MultiFunctionPrinter = Except.ok [] ∧
    construct RelationshipBrowserC =
      Except.error "RelationshipBrowser is abstract!" ∧
    construct RelationshipsC = Except.ok [("data", "[]")] := by
  refine ⟨?_, rfl, rfl, rfl, rfl⟩
  by_cases h : n = "Machine"
  · subst h
    rfl
  · unfold construct
    rw [className_concat]
    simp only [Level.lname]
    rw [runLevels_append, runLevels_Machine]
    simp only [h, if_false]
    simp [runLevels, runLevel, assignProps]

/-- Claim C5, counterexample: Machine cannot be constructed directly,
yet aggregation applied to Machine raises nothing at composition time;
it returns the wrapper class, and constructing an instance of that
composite even succeeds, because the guard compares against the wrapper
name base.  No InvalidBaseType failure exists anywhere. -/
theorem claimC5_counterexample :
    construct Machine = Except.error "Machine is abstract!" ∧
    aggregation Machine [] =
      Machine ++ [Level.aggregateL "base" [] [] []] ∧
    construct (aggregation Machine []) = Except.ok [] := ⟨rfl, rfl, rfl⟩

/-- Claim C5, amended: aggregation performs no input validation and
never fails at composition time: it always returns the wrapper chain.
When the base constructor chain does fail under the composite dynamic
name, that error surfaces only later, at instance construction of the
composite. -/
theorem claimC5_amended (B : JClass) (ms : List MixinCls) (e : String)
    (hB : runLevels "base" [] B = Except.error e) :
    aggregation B ms =
      B ++ [Level.aggregateL "base" ms
        (mergeAll (fun m => m.proto) [] ms)
        (mergeAll (fun m => m.statics) [] ms)] ∧
    construct (aggregation B ms) = Except.error e := by
  refine ⟨rfl, ?_⟩
  rw [construct_aggregation, hB]

/-- Witness for claim C5: a base class whose guard string equals the
wrapper name base makes the composite constructor chain fail, but only
at instance construction. -/
theorem claimC5_witness :
    runLevels "base" [] baseNamedTrap =
      Except.error "base is abstract!" ∧
    construct (aggregation baseNamedTrap []) =
      Except.error "base is abstract!" :=
  ⟨rfl, (claimC5_amended baseNamedTrap [] "base is abstract!" rfl).2⟩

/-- Claim C6: the Exclusion Set.  copyProps silently skips every
excluded name with no failure path, so a provider member named like an
Exclusion Set entry never reaches the composite: prototype and static
lookup of an excluded name on the composite fall through to the base
chain unchanged, and on a constructed instance an excluded name keeps
exactly the value the base construction gave it. -/
theorem claimC6_exclusion (t s : Props) (B : JClass) (ms : List MixinCls)
    (bp : Props) (key : String)
    (hk : excludedName key = true)
    (hB : runLevels "base" [] B = Except.ok bp)
    (hok : ∀ m ∈ ms, mixinConstructible m = true) :
    getProp (copyProps t s) key = getProp t key ∧
    protoLookup (aggregation B ms) key = protoLookup B key ∧
    staticLookup (aggregation B ms) key = staticLookup B key ∧
    construct (aggregation B ms) =
      Except.ok (mergeAll mixinInstProps bp ms) ∧
    getProp (mergeAll mixinInstProps bp ms) key = getProp bp key :=
  ⟨getProp_copyProps_excluded s t key hk,
    protoLookup_aggregation_excluded B ms key hk,
    staticLookup_aggregation_excluded B ms key hk,
    construct_aggregation_ok B ms bp hB hok,
    getProp_mergeAll_excluded mixinInstProps ms bp key hk⟩

/-- Witness for claim C6: a provider defining toString, constructor and
name does not alter any of them on the composite, and composition
succeeds without error. -/
theorem claimC6_witness :
    getProp (copyProps [("toString", "Base.toString")] evilMixin.proto)
      "toString" = some "Base.toString" ∧
    protoLookup (aggregation Printer [evilMixin]) "toString" =
      protoLookup Printer "toString" ∧
    staticLookup (aggregation Printer [evilMixin]) "name" =
      staticLookup Printer "name" ∧
    construct (aggregation Printer [evilMixin]) = Except.ok [] := by
  have h1 := claimC6_exclusion [("toString", "Base.toString")]
    evilMixin.proto Printer [evilMixin] [] "toString" (by decide) rfl
    (by decide)
  have h2 := claimC6_exclusion [("toString", "Base.toString")]
    evilMixin.proto Printer [evilMixin] [] "name" (by decide) rfl
    (by decide)
  exact ⟨h1.1, h1.2.1, h2.2.2.1, h1.2.2.2.1⟩

/-- Claim C7: instance isolation.  Provider members are copied onto each
instance as own properties: every construction of the composite yields
an instance owning the copied member, and reassigning the member on one
instance leaves the member of a second, independently constructed
instance of the same composite unchanged. -/
theorem claimC7_isolation (B : JClass) (ms : List MixinCls) (bp : Props)
    (key v w : String)
    (hB : runLevels "base" [] B = Except.ok bp)
    (hok : ∀ m ∈ ms, mixinConstructible m = true)
    (hv : getProp (mergeAll mixinInstProps bp ms) key = some v) :
    construct (aggregation B ms) =
      Except.ok (mergeAll mixinInstProps bp ms) ∧
    getProp (defineProp (mergeAll mixinInstProps bp ms) key w) key =
      some w ∧
    getProp (mergeAll mixinInstProps bp ms) key = some v := by
  refine ⟨construct_aggregation_ok B ms bp hB hok, ?_, hv⟩
  rw [getProp_defineProp]
  simp

/-- Witness for claim C7: both constructions of the Printer plus A
composite own report; mutating the first instance to a new value leaves
the second instance resolving the original provider value. -/
theorem claimC7_witness :
    construct (aggregation Printer [reportMixinA]) =
      Except.ok [("report", "A.instance.report")] ∧
    getProp (defineProp [("report", "A.instance.report")] "report"
      "mutated") "report" = some "mutated" ∧
    getProp [("report", "A.instance.report")] "report" =
      some "A.instance.report" := by
  have h := claimC7_isolation Printer [reportMixinA] [] "report"
    "A.instance.report" "mutated" rfl (by decide) rfl
  exact ⟨h.1, h.2.1, h.2.2⟩

/-- Claim C8: missing capability.  Constructing Research with an object
whose query slot is absent fails at construction time with the dynamic
method-missing TypeError, before any consumer logic runs and before any
output line is produced; with the slot present, construction runs the
query and logs one line per child. -/
theorem claimC8_missing_capability (b : Browser) :
    (b.findAllChildrenOf = none →
      Research.make b =
        Except.error
          "TypeError: browser.findAllChildrenOf is not a function") ∧
    (∀ f, b.findAllChildrenOf = some f →
      Research.make b =
        Except.ok ((f "John").map
          (fun p => "John has a child named " ++ p.name))) := by
  constructor
  · intro h
    unfold Research.make
    rw [h]
  · intro f h
    unfold Research.make
    rw [h]

/-- Witness for claim C8: a browser without the query operation fails at
construction; the Relationships store of the example succeeds and logs
the two children of John. -/
theorem claimC8_witness :
    Research.make ⟨none⟩ =
      Except.error
        "TypeError: browser.findAllChildrenOf is not a function" ∧
    Research.make rels0.toBrowser =
      Except.ok ["John has a child named Chris",
        "John has a child named Matt"] := by
  refine ⟨(claimC8_missing_capability ⟨none⟩).1 rfl, ?_⟩
  exact (claimC8_missing_capability rels0.toBrowser).2
    rels0.findAllChildrenOf rfl

/-- Claim C9: gateway substitutability.  The Research consumer reaches
its provider only through the findAllChildrenOf contract operation, so
two bound providers whose query operations agree on every query yield
identical Research results, with no change to the consumer. -/
theorem claimC9_substitutability (b1 b2 : Browser)
    (f1 f2 : String → List Person)
    (h1 : b1.findAllChildrenOf = some f1)
    (h2 : b2.findAllChildrenOf = some f2)
    (heq : ∀ q, f1 q = f2 q) :
    Research.make b1 = Research.make b2 := by
  have hj := heq "John"
  simp [Research.make, h1, h2, hj]

/-- Witness for claim C9: the store of the example and a second store
carrying one extra sibling record answer every children query alike, so
Research behaves identically against either. -/
theorem claimC9_witness :
    Research.make rels0.toBrowser = Research.make rels1.toBrowser := by
  apply claimC9_substitutability rels0.toBrowser rels1.toBrowser
    rels0.findAllChildrenOf rels1.findAllChildrenOf rfl rfl
  intro q
  show Relationships.findAllChildrenOf rels0 q =
    Relationships.findAllChildrenOf rels1 q
  unfold Relationships.findAllChildrenOf
  rw [show rels1.data =
        rels0.data ++ [⟨chrisP, RelType.sibling, mattP⟩] from rfl]
  rw [List.filter_append]
  have hb : (RelType.sibling == RelType.parent) = false := rfl
  simp [List.filter_cons, chrisP, hb, Bool.and_false]

/-- Claim C10: because the wrapper constructor instantiates each
capability provider directly with zero arguments, a provider carrying a
self-named abstract guard always makes composite instance construction
throw that guard error, once every earlier provider and the base chain
succeed; in particular every attempt to construct a Photocopier
instance throws the Scanner is abstract error, even though Photocopier
overrides print and scan. -/
theorem claimC10_guarded_mixin (B : JClass) (ms1 ms2 : List MixinCls)
    (g : MixinCls) (bp : Props)
    (hB : runLevels "base" [] B = Except.ok bp)
    (h1 : ∀ m ∈ ms1, mixinConstructible m = true)
    (hg : g.guard = some g.name) :
    construct (aggregation B (ms1 ++ g :: ms2)) =
      Except.error (g.name ++ " is abstract!") ∧
    construct Photocopier = Except.error "Scanner is abstract!" ∧
    construct (aggregation Printer [Scanner]) =
      Except.error "Scanner is abstract!" := by
  refine ⟨?_, rfl, rfl⟩
  rw [construct_aggregation, hB]
  simp only
  exact runMixins_error ms1 g ms2 bp _ h1
    (constructMixin_guard_fires g hg)

/-- Witness for claim C10 at the Printer base and the guarded Scanner
provider. -/
theorem claimC10_witness :
    construct (aggregation Printer ([] ++ Scanner :: [])) =
      Except.error "Scanner is abstract!" ∧
    construct Photocopier = Except.error "Scanner is abstract!" := by
  have h := claimC10_guarded_mixin Printer [] [] Scanner [] rfl
    (by decide) rfl
  exact ⟨h.1, h.2.1⟩
end DPJS
